import Mathlib

/-!
Verification of the CortAI video-clip pipeline core.

Shallow embedding of the Python sources under src/backend/src:
utils/chunking.py, agents/editor.py, core/graph.py,
services/messaging_rabbit.py and workers/collector_worker.py.
Python floats are modelled as rationals, Python dicts with known keys as
structures with Option fields, and external collaborators (filesystem,
broker, LLM, ffmpeg) as explicit parameters.
-/

set_option autoImplicit false

namespace CortAI

/-- Python str.strip: drop leading and trailing whitespace.  Written over the
character list so that it evaluates by kernel reduction. -/
def pyStrip (s : String) : String :=
  String.mk
    (((s.data.dropWhile Char.isWhitespace).reverse.dropWhile
      Char.isWhitespace).reverse)

/-- A Whisper transcription segment: the dict keys start, end and text used by
the pipeline.  Field names follow the source keys; end is a Lean keyword so it
is rendered as stop. -/
structure Seg where
  start : ℚ
  stop : ℚ
  text : String
  deriving DecidableEq

/-! ### utils/chunking.py -/

/-- The mutable loop state of create_chunks_from_segments
(chunking.py lines 53-56). -/
structure ChunkState where
  chunks : List (List Seg)
  current_chunk : List Seg
  chunk_start_time : ℚ
  chunk_end_time : ℚ
  deriving DecidableEq

/-- One iteration of the segment walk in create_chunks_from_segments
(chunking.py lines 62-90): a segment starting before chunk_end_time is
appended to the current chunk; otherwise the current chunk is saved (when
non-empty), the window moves to [chunk_end - overlap, chunk_end - overlap +
duration], the new chunk is seeded with the segments of the last saved chunk
whose start lies at or after the new window start, and the segment is
appended. -/
def chunkStep (chunk_duration_seconds overlap_seconds : ℚ)
    (st : ChunkState) (segment : Seg) : ChunkState :=
  if segment.start < st.chunk_end_time then
    { st with current_chunk := st.current_chunk ++ [segment] }
  else
    let chunks1 := if st.current_chunk.isEmpty then st.chunks
      else st.chunks ++ [st.current_chunk]
    let new_start := st.chunk_end_time - overlap_seconds
    let new_end := new_start + chunk_duration_seconds
    let seed := (chunks1.getLastD []).filter
      (fun prev_seg => decide (prev_seg.start ≥ new_start))
    { chunks := chunks1, current_chunk := seed ++ [segment],
      chunk_start_time := new_start, chunk_end_time := new_end }

/-- create_chunks_from_segments (chunking.py lines 14-100): walks the segments
with chunkStep starting from window [0, chunk_duration] and finally closes the
last open chunk. -/
def create_chunks_from_segments (segments : List Seg)
    (chunk_duration_seconds overlap_seconds : ℚ) : List (List Seg) :=
  if segments.isEmpty then []
  else
    let st := segments.foldl (chunkStep chunk_duration_seconds overlap_seconds)
      { chunks := [], current_chunk := [], chunk_start_time := 0,
        chunk_end_time := chunk_duration_seconds }
    if st.current_chunk.isEmpty then st.chunks else st.chunks ++ [st.current_chunk]

/-- Modelled from the spec wording of claim C2: walk the segments in order; a
segment with start below chunk_end joins the current chunk; otherwise the
current chunk is closed, the window shifts by the overlap, the new chunk is
seeded with the members of the just-closed chunk whose start is at or after
the new chunk start, and the segment is appended; after the walk the last open
chunk is closed.  Used only as the comparison point for the refinement
theorem. -/
def chunksWalkSpec (d o : ℚ) (done : List (List Seg)) (cur : List Seg)
    (chunk_end : ℚ) : List Seg → List (List Seg)
  | [] => if cur.isEmpty then done else done ++ [cur]
  | s :: rest =>
    if s.start < chunk_end then
      chunksWalkSpec d o done (cur ++ [s]) chunk_end rest
    else
      let closed := if cur.isEmpty then done else done ++ [cur]
      let new_start := chunk_end - o
      let seeded := cur.filter (fun p => decide (p.start ≥ new_start))
      chunksWalkSpec d o closed (seeded ++ [s]) (new_start + d) rest

/-- The spec-worded chunking walk of claim C2, started on the window ending at
the chunk duration. -/
def chunksSpecC2 (segments : List Seg) (d o : ℚ) : List (List Seg) :=
  chunksWalkSpec d o [] [] d segments

/-- should_use_chunking (chunking.py lines 152-172): chunk exactly when the
text is strictly longer than the threshold. -/
def should_use_chunking (transcription_text : String)
    (threshold_chars : ℕ) : Bool :=
  decide (transcription_text.length > threshold_chars)

/-! ### core/graph.py: build_clipped_transcription -/

/-- The segment-projection loop of build_clipped_transcription
(graph.py lines 71-88), with the JSON file read abstracted to its segments
list.  A segment ending before the clip start or starting after the clip end
is dropped; a kept segment is intersected with the clip and shifted to the
clip local time frame, and a non-positive projected length is widened to half
a second. -/
def clipStep (start fim : ℚ) (clipped : List Seg) (seg : Seg) : List Seg :=
  if seg.stop < start ∨ seg.start > fim then clipped
  else
    let new_start := max seg.start start - start
    let new_end := min seg.stop fim - start
    clipped ++ [{ start := new_start,
                  stop := if new_end > new_start then new_end
                    else new_start + (1 / 2 : ℚ),
                  text := pyStrip seg.text }]

/-- build_clipped_transcription folds clipStep over the transcript segments
starting from the empty clipped list (graph.py lines 74-88). -/
def build_clipped_transcription (segments : List Seg)
    (start fim : ℚ) : List Seg :=
  segments.foldl (clipStep start fim) []

/-- A segment overlaps the clip interval when its span meets [start, fim]
(claim C9 wording). -/
def overlapsClip (start fim : ℚ) (seg : Seg) : Prop :=
  start ≤ seg.stop ∧ seg.start ≤ fim

instance (start fim : ℚ) (seg : Seg) : Decidable (overlapsClip start fim seg) :=
  inferInstanceAs (Decidable (And _ _))

/-- Modelled from the spec wording of claim C9: project one surviving segment
into the clip local time frame, widening a zero or negative projected length
to half a second. -/
def projectClip (start fim : ℚ) (seg : Seg) : Seg :=
  let new_start := max seg.start start - start
  let new_end := min seg.stop fim - start
  { start := new_start,
    stop := if new_end ≤ new_start then new_start + (1 / 2 : ℚ) else new_end,
    text := pyStrip seg.text }

/-- Modelled from the spec wording of claim C9: keep exactly the overlapping
segments, each projected into the clip frame. -/
def clippedSpecC9 (segments : List Seg) (start fim : ℚ) : List Seg :=
  (segments.filter (fun seg => decide (overlapsClip start fim seg))).map
    (projectClip start fim)

/-! ### agents/editor.py -/

/-- A highlight record as a Python dict restricted to the keys the editor and
normalizer read; absent keys are none.  The end key is rendered as endv. -/
structure HRec where
  start : Option ℚ := none
  endv : Option ℚ := none
  inicio : Option ℚ := none
  fim : Option ℚ := none
  highlight_inicio_segundos : Option ℚ := none
  highlight_fim_segundos : Option ℚ := none
  summary : Option String := none
  resumo : Option String := none
  resposta_bruta : Option String := none
  score : Option ℚ := none
  pontuacao : Option ℚ := none
  deriving DecidableEq

/-- Python x or y for an optional string x: absent or empty (falsy) falls
through to y. -/
def pyOrStr (a : Option String) (b : String) : String :=
  match a with
  | some s => if s = "" then b else s
  | none => b

/-- Python x or y for an optional number x: absent or zero (falsy) falls
through to y. -/
def pyOrQ (a : Option ℚ) (b : ℚ) : ℚ :=
  match a with
  | some q => if q = 0 then b else q
  | none => b

/-- The shapes a loaded highlight JSON can take for the purposes of
normalize_highlights (editor.py lines 110-140): a dict carrying a highlights
key, a bare list, any other dict, or a non dict non list value. -/
inductive HLInput where
  | dict_with_highlights (highlights : List HRec) (rest : HRec)
  | bare_list (l : List HRec)
  | single_dict (d : HRec)
  | invalid
  deriving DecidableEq

/-- The start lookup chain of the legacy single-dict branch
(editor.py line 127). -/
def legacyStart (d : HRec) : Option ℚ :=
  d.start.orElse fun _ => (d.highlight_inicio_segundos.orElse fun _ => d.inicio)

/-- The end lookup chain of the legacy single-dict branch
(editor.py line 128). -/
def legacyEnd (d : HRec) : Option ℚ :=
  d.endv.orElse fun _ => (d.highlight_fim_segundos.orElse fun _ => d.fim)

/-- normalize_highlights (editor.py lines 110-140): a dict with a
highlights key yields that list, a bare list is returned as is, any other
dict is read as one legacy highlight with summary and score fallbacks, and
anything else is an error. -/
def normalize_highlights : HLInput → Except String (List HRec)
  | .dict_with_highlights l _ => .ok l
  | .bare_list l => .ok l
  | .single_dict d =>
    match legacyStart d, legacyEnd d with
    | some s, some e =>
      .ok [{ start := some s, endv := some e,
             summary := some (pyOrStr d.summary
               (pyOrStr d.resumo (d.resposta_bruta.getD ("")))),
             score := some (pyOrQ d.score (d.pontuacao.getD 0)) }]
    | _, _ =>
      .error ("ERRO: JSON de highlight nao contem campos de inicio/fim validos")
  | .invalid =>
    .error ("ERRO: Formato do JSON invalido. Esperado lista ou chave de highlights.")

/-- The editor loop start extraction (editor.py line 207): key start with
fallback inicio, default 0. -/
def editorStart (h : HRec) : ℚ :=
  (h.start.orElse fun _ => h.inicio).getD 0

/-- The editor loop end extraction (editor.py line 208): key end with fallback
fim, default 0. -/
def editorEnd (h : HRec) : ℚ :=
  (h.endv.orElse fun _ => h.fim).getD 0

/-- A clip produced by the editor loop, identified by its one-based highlight
index and the cut interval. -/
structure Clip where
  idx : ℕ
  inicio : ℚ
  fim : ℚ
  deriving DecidableEq

/-- The observable log events of the editor loop: the invalid-timestamps
warning, the produced-clip confirmation and the per-highlight failure
message. -/
inductive EditorLog where
  | aviso_ignorado (idx : ℕ)
  | clip_gerado (idx : ℕ)
  | erro_falha (idx : ℕ)
  deriving DecidableEq

/-- The per-highlight loop of executar_agente_editor (editor.py lines
204-287), walking the highlights with one-based indices.  The external cutter
(cortar_video_ffmpeg plus the optional subtitle generation) is abstracted as
a boolean success predicate over the index and cut interval; a highlight with
inicio at or after fim is skipped with a warning, a cutter failure is caught,
logged and skipped, and a success appends the clip. -/
def process_highlights (cutter : ℕ → ℚ → ℚ → Bool) :
    ℕ → List HRec → List Clip × List EditorLog
  | _, [] => ([], [])
  | idx, h :: rest =>
    let inicio := editorStart h
    let fim := editorEnd h
    if fim ≤ inicio then
      let r := process_highlights cutter (idx + 1) rest
      (r.1, .aviso_ignorado idx :: r.2)
    else if cutter idx inicio fim then
      let r := process_highlights cutter (idx + 1) rest
      (⟨idx, inicio, fim⟩ :: r.1, .clip_gerado idx :: r.2)
    else
      let r := process_highlights cutter (idx + 1) rest
      (r.1, .erro_falha idx :: r.2)

/-- executar_agente_editor after normalization (editor.py lines 189-297): an
empty highlight list raises, otherwise the loop runs and the job fails
exactly when no clip was generated.  The source additionally unwraps a
singleton result list to its only element; the model keeps the list. -/
def executar_agente_editor (highlights : List HRec)
    (cutter : ℕ → ℚ → ℚ → Bool) : Except String (List Clip) :=
  if highlights.isEmpty then
    .error ("ERRO: Nenhum highlight encontrado no JSON")
  else
    let r := process_highlights cutter 1 highlights
    if r.1.isEmpty then .error ("ERRO: Nenhum clip foi gerado com sucesso")
    else .ok r.1

/-- The log event the loop emits for the highlight at one-based index k. -/
def logFor (cutter : ℕ → ℚ → ℚ → Bool) (k : ℕ) (h : HRec) : EditorLog :=
  if editorEnd h ≤ editorStart h then .aviso_ignorado k
  else if cutter k (editorStart h) (editorEnd h) then .clip_gerado k
  else .erro_falha k

/-! ### services/messaging_rabbit.py -/

/-- The job envelope of new_job (messaging_rabbit.py lines 133-154), with the
payload abstracted away. -/
structure Envelope where
  job_id : String
  step : String
  deriving DecidableEq

/-- The acknowledgement a delivery receives from the consume callback. -/
inductive AckAction where
  | ack
  | nack_no_requeue
  deriving DecidableEq

/-- What the consume callback did with one delivery: the acknowledgement it
sent and the envelopes it dispatched to the handler. -/
structure CallbackOutcome where
  action : AckAction
  handler_calls : List Envelope
  deriving DecidableEq

/-- The callback registered by consume (messaging_rabbit.py lines 220-244).
The body is the parse result of json.loads on the delivery body.  In the
source the inner try parses the message and nacks without requeue on a parse
error; after a successful parse the callback immediately acks the delivery.
No statement of the callback body applies the handler argument, so
handler_calls is always empty. -/
def consume_callback (parsed : Except String Envelope)
    (handler : Envelope → Except String Unit) : CallbackOutcome :=
  match parsed, handler with
  | .error _, _ => { action := .nack_no_requeue, handler_calls := [] }
  | .ok _, _ => { action := .ack, handler_calls := [] }

/-! ### workers/collector_worker.py -/

/-- JobStatus (state_manager.py lines 70-77). -/
inductive JobStatus where
  | PENDING
  | PROCESSING
  | COMPLETED
  | FAILED
  deriving DecidableEq

/-- The externally visible effects of handle_collector: Redis state updates,
child job initialization, and messages published to the transcribe queue. -/
inductive CollectorEvent where
  | update_job_state (job_id : String) (status : JobStatus) (step : String)
  | initialize_job (job_id : String) (url : String)
  | publish_transcribe (job_id : String) (segment_path : String)
      (segment_index : ℕ) (total_segments : ℕ) (parent_job_id : String)
  deriving DecidableEq

/-- The successful-shape result of executar_agente_coletor as read by
handle_collector (collector_worker.py lines 101-111). -/
structure CollectResult where
  status : String
  segment_count : ℕ
  segment_paths : List String
  deriving DecidableEq

/-- The fields of a collect-queue message read by handle_collector
(collector_worker.py lines 39-45); absent keys are none. -/
structure CollectorMessage where
  job_id : Option String := none
  stream_url : Option String := none
  segment_duration : Option ℚ := none
  max_duration : Option ℚ := none
  deriving DecidableEq

/-- Python truthiness of an optional string: absent and empty are falsy. -/
def pyTruthyStr : Option String → Bool
  | none => false
  | some s => decide (s ≠ "")

/-- Zero-padded three digit index, the f-string 03d format of
collector_worker.py line 138. -/
def pad3 (n : ℕ) : String :=
  if n < 10 then "00" ++ toString n
  else if n < 100 then "0" ++ toString n
  else toString n

/-- The fan-out body of handle_collector (collector_worker.py lines 127-160):
for each segment path, initialize the child job, mark it pending for
transcription and publish the transcribe message. -/
def collectorFanOut (job_id stream_url : String) (total : ℕ) :
    ℕ → List String → List CollectorEvent
  | _, [] => []
  | idx, segment_path :: rest =>
    let segment_job_id := job_id ++ "_seg" ++ pad3 idx
    .initialize_job segment_job_id stream_url ::
    .update_job_state segment_job_id .PENDING ("transcribe") ::
    .publish_transcribe segment_job_id segment_path idx total job_id ::
    collectorFanOut job_id stream_url total (idx + 1) rest

/-- handle_collector (collector_worker.py lines 29-182) as a function of the
message and of the outcome of the external stream collector; the error case
of the collector models its raised exception.  Returns the emitted events and
whether the handler re-raises (sending the delivery to the DLQ). -/
def handle_collector (message : CollectorMessage)
    (coleta : Except String (Option CollectResult)) :
    List CollectorEvent × Bool :=
  if pyTruthyStr message.job_id = false then ([], false)
  else
    let job_id := message.job_id.getD ("")
    if pyTruthyStr message.stream_url = false then
      ([.update_job_state job_id .FAILED ("collect_invalid_url")], false)
    else
      let stream_url := message.stream_url.getD ("")
      let ev0 : List CollectorEvent :=
        [.update_job_state job_id .PROCESSING ("collect")]
      match coleta with
      | .error _ =>
        (ev0 ++ [.update_job_state job_id .FAILED ("collect_critical_error")],
         true)
      | .ok none =>
        (ev0 ++ [.update_job_state job_id .FAILED ("collect_failed")], false)
      | .ok (some result) =>
        if result.status ≠ "sucesso" then
          (ev0 ++ [.update_job_state job_id .FAILED ("collect_failed")], false)
        else if result.segment_paths.isEmpty then
          (ev0 ++ [.update_job_state job_id .FAILED ("collect_no_segments")],
           false)
        else
          (ev0 ++
           [.update_job_state job_id .PROCESSING
             ("collect_publishing_segments")] ++
           collectorFanOut job_id stream_url result.segment_paths.length 0
             result.segment_paths ++
           [.update_job_state job_id .PROCESSING ("transcribe")],
           false)

/-! ### core/graph.py: the in-process DAG nodes -/

/-- The transcript JSON as read by node_analisar: text plus segments. -/
structure Transcription where
  text : String
  segments : List Seg
  deriving DecidableEq

/-- What agent.run can return, as discriminated by node_analisar
(graph.py lines 316-328): a dict with a highlights list, some other dict, or
a non dict value. -/
inductive AnalystResult where
  | dict_with_highlights (l : List HRec)
  | dict_other (d : HRec)
  | non_dict
  deriving DecidableEq

/-- The normalization of the analyst output in node_analisar
(graph.py lines 316-328): keep a highlights list as is, read any other dict
as one highlight via the legacy keys, and fall back to the empty list. -/
def normalize_analyst_result : AnalystResult → List HRec
  | .dict_with_highlights l => l
  | .dict_other d =>
    let s := (d.highlight_inicio_segundos.orElse fun _ => d.start).getD 0
    let e := (d.highlight_fim_segundos.orElse fun _ => d.endv).getD 0
    let m := pyOrStr d.resposta_bruta (pyOrStr d.summary (""))
    let c := d.score.getD 0
    [{ start := some s, endv := some e, summary := some m, score := some c }]
  | .non_dict => []

/-- CortAIState (graph.py lines 150-166) plus the extra keys the nodes write;
TypedDict with total set to false, so every field is optional. -/
structure CortAIState where
  url : Option String := none
  video_path : Option String := none
  transcription : Option Transcription := none
  transcription_path : Option String := none
  highlight : Option (List HRec) := none
  highlight_path : Option String := none
  highlight_json_path : Option String := none
  clips_paths : Option (List String) := none
  subtitle_srt_path : Option String := none
  subtitle_vtt_path : Option String := none
  thumbnail_path : Option String := none
  error : Option String := none
  video_id : Option ℕ := none
  max_highlights : Option ℕ := none
  include_subtitles : Option Bool := none
  deriving DecidableEq

/-- The external collaborators of node_analisar: loading the transcription
file, running the analyst agent, and saving the highlight JSON. -/
structure AnalysisEnv where
  load_transcription : Except String Transcription
  agent_result : Except String AnalystResult
  save_highlight : Except String Unit

/-- The per-video directory name of get_video_paths (graph.py line 108); a
missing id is rendered the way a Python f-string renders None. -/
def video_dir : Option ℕ → String
  | some n => "video_" ++ toString n
  | none => "video_None"

/-- The highlight JSON path of get_video_paths (graph.py line 118). -/
def highlight_json_path_for (video_id : Option ℕ) : String :=
  video_dir video_id ++ "/highlights.json"

/-- node_analisar (graph.py lines 259-363).  The node never consults the
error field of the incoming state: it proceeds straight to its checks and
work, overwriting error on its own failures.  Progress reporting is a side
effect outside the state and is not modelled. -/
def node_analisar (env : AnalysisEnv) (state : CortAIState) : CortAIState :=
  match state.transcription_path with
  | none =>
    { state with error := some ("Transcription path não encontrado no estado!") }
  | some _ =>
    match env.load_transcription with
    | .error e =>
      { state with error := some ("Falha ao carregar transcrição: " ++ e) }
    | .ok transcription_json =>
      if pyStrip transcription_json.text = "" then
        { state with error := some ("Transcrição vazia ou inválida!") }
      else
        match env.agent_result with
        | .error e => { state with error := some ("AnalystError: " ++ e) }
        | .ok highlight_result =>
          let highlights := normalize_analyst_result highlight_result
          let state1 := { state with highlight := some highlights }
          match env.save_highlight with
          | .error e =>
            { state1 with error := some ("Erro ao salvar highlight JSON: " ++ e) }
          | .ok _ =>
            { state1 with
              highlight_json_path := some (highlight_json_path_for state.video_id) }

/-- The external collaborators of node_editar: existence of the highlight
JSON on disk, the editor run returning normalized clip paths, and the
advisory subtitle and thumbnail generation whose success yields the three
artifact paths. -/
structure EditorEnv where
  highlight_json_exists : Bool
  editor_clips : Except String (List String)
  artifacts : Option (String × String × String)

/-- node_editar (graph.py lines 366-476).  A populated error field
short-circuits the node before any state mutation; a missing highlight or
highlight file sets error; an editor failure sets error; on success the clip
paths are recorded and the advisory artifact block may add the subtitle and
thumbnail paths, its failure being only warned about. -/
def node_editar (env : EditorEnv) (state : CortAIState) : CortAIState :=
  if state.error.isSome then state
  else if state.highlight.isNone then
    { state with error := some ("Highlight não gerado na etapa de análise.") }
  else if env.highlight_json_exists = false then
    { state with error := some ("Arquivo de highlight não encontrado") }
  else
    match env.editor_clips with
    | .error e => { state with error := some ("EditorError: " ++ e) }
    | .ok clips_paths =>
      let state1 := { state with highlight_path := clips_paths.head?,
                                 clips_paths := some clips_paths }
      match env.artifacts with
      | some (srt, vtt, thumb) =>
        { state1 with subtitle_srt_path := some srt,
                      subtitle_vtt_path := some vtt,
                      thumbnail_path := some thumb }
      | none => state1

/-! ### Concrete sample inputs used by witnesses and counterexamples -/

/-- The canonical-shape highlight dict carrying exactly the keys start, end,
summary and score. -/
def canonHighlight (s e : ℚ) (m : String) (c : ℚ) : HRec :=
  { start := some s, endv := some e, summary := some m, score := some c }

/-- The legacy-shape highlight dict carrying exactly the keys
highlight_inicio_segundos, highlight_fim_segundos and resposta_bruta. -/
def legacyHighlight (s e : ℚ) (m : String) : HRec :=
  { highlight_inicio_segundos := some s, highlight_fim_segundos := some e,
    resposta_bruta := some m }

/-- Three segments: two inside the first six-minute window and one after
it. -/
def sampleSegs : List Seg :=
  [⟨0, 5, "a"⟩, ⟨5, 10, "b"⟩, ⟨370, 375, "c"⟩]

/-- A transcript text of n characters. -/
def thresholdText (n : ℕ) : String :=
  String.mk (List.replicate n 'a')

/-- A highlight whose end equals its start. -/
def invalidHighlight : HRec :=
  { start := some 10, endv := some 10 }

/-- A well-formed five-second highlight. -/
def validHighlight : HRec :=
  { start := some 3, endv := some 8 }

/-- A cutter that always succeeds. -/
def cutterAlwaysOk : ℕ → ℚ → ℚ → Bool := fun _ _ _ => true

/-- A cutter that fails exactly on the second highlight. -/
def cutterFailsAt2 : ℕ → ℚ → ℚ → Bool := fun i _ _ => decide (i ≠ 2)

/-- A sample parsed envelope. -/
def sampleEnvelope : Envelope := ⟨"job-1", "analyse"⟩

/-- A handler that raises on every message. -/
def raisingHandler : Envelope → Except String Unit :=
  fun _ => .error ("handler exception")

/-- A collect message carrying a job id and a stream URL. -/
def sampleCollectMessage : CollectorMessage :=
  { job_id := some ("job-1"), stream_url := some ("rtmp://live.example/x") }

/-- A successful collector result with zero segment files. -/
def emptyCollectResult : CollectResult :=
  { status := "sucesso", segment_count := 0, segment_paths := [] }

/-- A DAG state in which a previous node already recorded an error but a
transcription path is present. -/
def errState : CortAIState :=
  { transcription_path := some ("t.json"), error := some ("boom"),
    video_id := some 1 }

/-- An analysis environment in which every collaborator succeeds. -/
def okAnalysisEnv : AnalysisEnv :=
  { load_transcription := .ok ⟨"texto", []⟩,
    agent_result := .ok (.dict_with_highlights [validHighlight]),
    save_highlight := .ok () }

/-- An editor environment whose editor run returns no clips; unused by the
short-circuit path. -/
def idleEditorEnv : EditorEnv :=
  { highlight_json_exists := true, editor_clips := .ok [], artifacts := none }

/-! ## Theorems -/

/-- Claim C7: the chunking decision over transcript text length is a strict
threshold at 20000 characters: length exactly 20000 keeps the direct path
(should_use_chunking is false) and length 20001 switches to the chunked
path. -/
theorem should_use_chunking_strict_threshold (s t : String)
    (hs : s.length = 20000) (ht : t.length = 20001) :
    should_use_chunking s 20000 = false ∧ should_use_chunking t 20000 = true := by
  constructor <;> simp [should_use_chunking, hs, ht]

/-- Witness for claim C7 at concrete texts of lengths 20000 and 20001. -/
theorem should_use_chunking_strict_threshold_witness :
    should_use_chunking (thresholdText 20000) 20000 = false ∧
    should_use_chunking (thresholdText 20001) 20000 = true :=
  should_use_chunking_strict_threshold (thresholdText 20000)
    (thresholdText 20001)
    (by rw [thresholdText, String.length, List.length_replicate])
    (by rw [thresholdText, String.length, List.length_replicate])

/-- Claim C1, evaluated at the failing input: the consume callback, given a
delivery whose body parses as JSON and a handler that raises, sends a
positive acknowledgement and performs no handler dispatch, while a
non-parsing body is nacked without requeue.  This contradicts the claimed
(and documented) behavior that the parsed message is dispatched to the
handler and a raising handler leads to a negative acknowledgement. -/
theorem consume_callback_acks_without_dispatch :
    consume_callback (.ok sampleEnvelope) raisingHandler =
      { action := .ack, handler_calls := [] } ∧
    consume_callback (.error ("malformed")) raisingHandler =
      { action := .nack_no_requeue, handler_calls := [] } :=
  ⟨rfl, rfl⟩

/-- Claim C8: a collector run reported successful but with zero segment
paths updates the parent job to PROCESSING for the collect step and then to
FAILED with step collect_no_segments, publishes nothing to the transcribe
queue, and does not re-raise. -/
theorem collector_no_segments_failure (message : CollectorMessage)
    (result : CollectResult) (j u : String)
    (hj : message.job_id = some j) (hjne : j ≠ "")
    (hu : message.stream_url = some u) (hune : u ≠ "")
    (hst : result.status = "sucesso") (hsp : result.segment_paths = []) :
    handle_collector message (.ok (some result)) =
      ([.update_job_state j .PROCESSING ("collect"),
        .update_job_state j .FAILED ("collect_no_segments")], false) := by
  simp [handle_collector, pyTruthyStr, hj, hjne, hu, hune, hst, hsp]

/-- Witness for claim C8 at a concrete message and collector result. -/
theorem collector_no_segments_failure_witness :
    handle_collector sampleCollectMessage (.ok (some emptyCollectResult)) =
      ([.update_job_state ("job-1") .PROCESSING ("collect"),
        .update_job_state ("job-1") .FAILED ("collect_no_segments")], false) :=
  collector_no_segments_failure sampleCollectMessage emptyCollectResult
    "job-1" "rtmp://live.example/x" rfl (by decide) rfl (by decide) rfl rfl

/-- Claim C6: the normalizer accepts the three shapes.  A dict with a
highlights key and a bare list yield the carried list unchanged; a canonical
single-highlight dict yields exactly its own one-element list; and the
legacy single dict keyed highlight_inicio_segundos and
highlight_fim_segundos yields the same canonical one-element list with score
zero, so semantically equal inputs in different shapes emit the same
internal list. -/
theorem normalize_highlights_shape_agreement (l : List HRec) (rest : HRec)
    (s e : ℚ) (m : String) (c : ℚ) :
    normalize_highlights (.dict_with_highlights l rest) = .ok l ∧
    normalize_highlights (.bare_list l) = .ok l ∧
    normalize_highlights (.single_dict (canonHighlight s e m c)) =
      .ok [canonHighlight s e m c] ∧
    normalize_highlights (.single_dict (legacyHighlight s e m)) =
      .ok [canonHighlight s e m 0] := by
  refine ⟨rfl, rfl, ?_, ?_⟩
  · by_cases hm : m = "" <;> by_cases hc : c = 0 <;>
      simp [normalize_highlights, canonHighlight, legacyStart, legacyEnd,
        pyOrStr, pyOrQ, hm, hc, Option.orElse]
  · by_cases hm : m = "" <;>
      simp [normalize_highlights, canonHighlight, legacyHighlight,
        legacyStart, legacyEnd, pyOrStr, pyOrQ, hm, Option.orElse]

/-- Structural shape of the editor loop logs: each highlight contributes
exactly its own log event, in order. -/
theorem process_cons_snd (cutter : ℕ → ℚ → ℚ → Bool) (n : ℕ) (h : HRec)
    (rest : List HRec) :
    (process_highlights cutter n (h :: rest)).2 =
      logFor cutter n h :: (process_highlights cutter (n + 1) rest).2 := by
  by_cases h1 : editorEnd h ≤ editorStart h
  · simp [process_highlights, logFor, h1]
  · by_cases h2 : cutter n (editorStart h) (editorEnd h) <;>
      simp [process_highlights, logFor, h1, h2]

/-- Structural shape of the editor loop clips: the head highlight contributes
its clip exactly when it is valid and the cutter succeeds on it. -/
theorem process_cons_fst (cutter : ℕ → ℚ → ℚ → Bool) (n : ℕ) (h : HRec)
    (rest : List HRec) :
    (process_highlights cutter n (h :: rest)).1 =
      (if editorStart h < editorEnd h ∧
          cutter n (editorStart h) (editorEnd h) = true
       then [⟨n, editorStart h, editorEnd h⟩] else []) ++
      (process_highlights cutter (n + 1) rest).1 := by
  by_cases h1 : editorEnd h ≤ editorStart h
  · simp [process_highlights, h1, not_lt.2 h1]
  · by_cases h2 : cutter n (editorStart h) (editorEnd h) <;>
      simp [process_highlights, h1, h2, not_le.1 h1]

/-- The log event of the highlight at position i appears among the loop
logs. -/
theorem logFor_mem_process (cutter : ℕ → ℚ → ℚ → Bool) :
    ∀ (hs : List HRec) (n i : ℕ) (hi : i < hs.length),
      logFor cutter (n + i) (hs.get ⟨i, hi⟩) ∈ (process_highlights cutter n hs).2 := by
  intro hs
  induction hs with
  | nil => intro n i hi; exact absurd hi (by simp)
  | cons h rest ih =>
    intro n i hi
    rw [process_cons_snd]
    cases i with
    | zero => simp
    | succ j =>
      have hj : j < rest.length := by simpa using hi
      have harith : n + (j + 1) = (n + 1) + j := by omega
      have hget : (h :: rest).get ⟨j + 1, hi⟩ = rest.get ⟨j, hj⟩ := rfl
      rw [harith, hget]
      exact List.mem_cons_of_mem _ (ih (n + 1) j hj)

/-- Characterization of the clips produced by the editor loop: a clip is in
the output exactly when it records a valid highlight position on which the
cutter succeeded. -/
theorem mem_process_fst (cutter : ℕ → ℚ → ℚ → Bool) :
    ∀ (hs : List HRec) (n : ℕ) (c : Clip),
      c ∈ (process_highlights cutter n hs).1 ↔
        ∃ i, ∃ hi : i < hs.length,
          c = ⟨n + i, editorStart (hs.get ⟨i, hi⟩), editorEnd (hs.get ⟨i, hi⟩)⟩ ∧
          editorStart (hs.get ⟨i, hi⟩) < editorEnd (hs.get ⟨i, hi⟩) ∧
          cutter (n + i) (editorStart (hs.get ⟨i, hi⟩))
            (editorEnd (hs.get ⟨i, hi⟩)) = true := by
  intro hs
  induction hs with
  | nil => intro n c; simp [process_highlights]
  | cons h rest ih =>
    intro n c
    rw [process_cons_fst]
    constructor
    · intro hc
      rcases List.mem_append.1 hc with hhead | htail
      · by_cases hg : editorStart h < editorEnd h ∧
            cutter n (editorStart h) (editorEnd h) = true
        · rw [if_pos hg] at hhead
          have hceq : c = ⟨n, editorStart h, editorEnd h⟩ :=
            List.mem_singleton.1 hhead
          exact ⟨0, by simp, by simpa using hceq, by simpa using hg.1,
            by simpa using hg.2⟩
        · rw [if_neg hg] at hhead
          exact absurd hhead (List.not_mem_nil c)
      · rcases (ih (n + 1) c).1 htail with ⟨j, hj, hc1, hc2, hc3⟩
        have hj1 : j + 1 < (h :: rest).length := by simpa using Nat.succ_lt_succ hj
        have hget : (h :: rest).get ⟨j + 1, hj1⟩ = rest.get ⟨j, hj⟩ := rfl
        have harith : n + (j + 1) = (n + 1) + j := by omega
        exact ⟨j + 1, hj1, by rw [hget, harith]; exact hc1,
          by rw [hget]; exact hc2, by rw [hget, harith]; exact hc3⟩
    · rintro ⟨i, hi, hc1, hc2, hc3⟩
      cases i with
      | zero =>
        have hget : (h :: rest).get ⟨0, hi⟩ = h := rfl
        rw [hget] at hc1 hc2 hc3
        rw [Nat.add_zero] at hc1 hc3
        refine List.mem_append.2 (Or.inl ?_)
        rw [if_pos ⟨hc2, hc3⟩]
        exact List.mem_singleton.2 hc1
      | succ j =>
        have hj : j < rest.length := by simpa using hi
        have hget : (h :: rest).get ⟨j + 1, hi⟩ = rest.get ⟨j, hj⟩ := rfl
        have harith : n + (j + 1) = (n + 1) + j := by omega
        rw [hget] at hc1 hc2 hc3
        rw [harith] at hc1 hc3
        exact List.mem_append.2 (Or.inr ((ih (n + 1) c).2 ⟨j, hj, hc1, hc2, hc3⟩))

/-- Claim C3 counterexample: at the editor, a highlight with end equal to
start is not given the five-second fallback; the loop produces no clip for
it (only the ignored warning) and, it being the only highlight, the whole
run raises instead of producing a clip. -/
theorem editor_no_fallback_counterexample :
    process_highlights cutterAlwaysOk 1 [invalidHighlight] =
      ([], [.aviso_ignorado 1]) ∧
    executar_agente_editor [invalidHighlight] cutterAlwaysOk =
      .error ("ERRO: Nenhum clip foi gerado com sucesso") := by
  constructor <;> rfl

/-- Claim C3 as amended: at the editor, a highlight whose coerced end is at
or below its coerced start is skipped with the invalid-timestamps warning
and no clip is produced for that highlight (the plus-five-seconds rewrite
lives in the planner sanitization of main_graph.py, not in the editor). -/
theorem editor_invalid_highlight_skipped (hs : List HRec)
    (cutter : ℕ → ℚ → ℚ → Bool) (i : ℕ) (hi : i < hs.length)
    (hle : editorEnd (hs.get ⟨i, hi⟩) ≤ editorStart (hs.get ⟨i, hi⟩)) :
    EditorLog.aviso_ignorado (i + 1) ∈ (process_highlights cutter 1 hs).2 ∧
    ∀ c ∈ (process_highlights cutter 1 hs).1, c.idx ≠ i + 1 := by
  constructor
  · have hmem := logFor_mem_process cutter hs 1 i hi
    rw [logFor, if_pos hle, Nat.add_comm 1 i] at hmem
    exact hmem
  · intro c hc hidx
    rcases (mem_process_fst cutter hs 1 c).1 hc with ⟨j, hj, hc1, hc2, _⟩
    have hji : j = i := by
      have : c.idx = 1 + j := by rw [hc1]
      omega
    subst hji
    have : hs.get ⟨j, hj⟩ = hs.get ⟨j, hi⟩ := rfl
    rw [this] at hc2
    exact absurd hc2 (not_lt.2 hle)

/-- Witness for the amended claim C3: with a valid first highlight and a
degenerate second one, the warning for index two is logged. -/
theorem editor_invalid_highlight_skipped_witness :
    EditorLog.aviso_ignorado 2 ∈
      (process_highlights cutterAlwaysOk 1 [validHighlight, invalidHighlight]).2 :=
  (editor_invalid_highlight_skipped [validHighlight, invalidHighlight]
    cutterAlwaysOk 1 (by decide) (by decide)).1

/-- Claim C5: a cutter failure on one highlight is logged and only skips that
highlight: every other valid highlight on which the cutter succeeds still
yields its clip, and the whole run raises exactly when zero clips were
produced. -/
theorem editor_partial_failure_policy (hs : List HRec)
    (cutter : ℕ → ℚ → ℚ → Bool) (i : ℕ) (hi : i < hs.length)
    (hvalid : editorStart (hs.get ⟨i, hi⟩) < editorEnd (hs.get ⟨i, hi⟩))
    (hfail : cutter (i + 1) (editorStart (hs.get ⟨i, hi⟩))
      (editorEnd (hs.get ⟨i, hi⟩)) = false) :
    EditorLog.erro_falha (i + 1) ∈ (process_highlights cutter 1 hs).2 ∧
    (∀ c ∈ (process_highlights cutter 1 hs).1, c.idx ≠ i + 1) ∧
    (∀ j, ∀ hj : j < hs.length,
      editorStart (hs.get ⟨j, hj⟩) < editorEnd (hs.get ⟨j, hj⟩) →
      cutter (j + 1) (editorStart (hs.get ⟨j, hj⟩))
        (editorEnd (hs.get ⟨j, hj⟩)) = true →
      (⟨j + 1, editorStart (hs.get ⟨j, hj⟩), editorEnd (hs.get ⟨j, hj⟩)⟩ : Clip) ∈
        (process_highlights cutter 1 hs).1) ∧
    (executar_agente_editor hs cutter =
        .error ("ERRO: Nenhum clip foi gerado com sucesso") ↔
      (process_highlights cutter 1 hs).1 = []) := by
  refine ⟨?_, ?_, ?_, ?_⟩
  · have hmem := logFor_mem_process cutter hs 1 i hi
    rw [logFor, if_neg (not_le.2 hvalid), Nat.add_comm 1 i, if_neg ?_] at hmem
    · exact hmem
    · rw [hfail]; exact Bool.false_ne_true
  · intro c hc hidx
    rcases (mem_process_fst cutter hs 1 c).1 hc with ⟨j, hj, hc1, _, hc3⟩
    have hji : j = i := by
      have : c.idx = 1 + j := by rw [hc1]
      omega
    subst hji
    have hsame : hs.get ⟨j, hj⟩ = hs.get ⟨j, hi⟩ := rfl
    rw [hsame, Nat.add_comm 1 j] at hc3
    rw [hc3] at hfail
    exact Bool.false_ne_true hfail.symm
  · intro j hj hjvalid hjok
    exact (mem_process_fst cutter hs 1 _).2
      ⟨j, hj, by rw [Nat.add_comm 1 j], hjvalid, by rw [Nat.add_comm 1 j]; exact hjok⟩
  · have hne : hs.isEmpty = false := by
      cases hs with
      | nil => exact absurd hi (by simp)
      | cons a l => rfl
    rw [executar_agente_editor, hne]
    by_cases hclips : (process_highlights cutter 1 hs).1.isEmpty
    · rw [if_neg (by simp), if_pos hclips]
      simp [List.isEmpty_iff.1 hclips]
    · rw [if_neg (by simp), if_neg hclips]
      constructor
      · intro hcontra; exact absurd hcontra (by simp)
      · intro hnil; exact absurd (List.isEmpty_iff.2 hnil) hclips

/-- Witness for claim C5: three valid highlights, the cutter failing only on
the second; the failure log for index two is emitted. -/
theorem editor_partial_failure_policy_witness :
    EditorLog.erro_falha 2 ∈
      (process_highlights cutterFailsAt2 1
        [validHighlight, validHighlight, validHighlight]).2 :=
  (editor_partial_failure_policy [validHighlight, validHighlight, validHighlight]
    cutterFailsAt2 1 (by decide) (by decide) (by decide)).1

/-- Claim C4 counterexample: a state whose error field is already populated
still has its analysis work performed by node_analisar (the node rewrites
the highlight field), so the analyse node neither observes the error nor
returns the state unchanged apart from it. -/
theorem node_analisar_ignores_error_counterexample :
    errState.error = some ("boom") ∧
    node_analisar okAnalysisEnv errState ≠ errState := by
  constructor
  · rfl
  · decide

/-- Claim C4 as amended: in the in-process DAG, only the edit node observes a
populated error field, skipping its work and returning the state unchanged;
the analyse node does not consult the error field and performs its work
regardless. -/
theorem graph_error_shortcircuit :
    (∀ (env : EditorEnv) (s : CortAIState), s.error.isSome → node_editar env s = s) ∧
    (∃ (env : AnalysisEnv) (s : CortAIState),
      s.error.isSome ∧ node_analisar env s ≠ s) := by
  constructor
  · intro env s h
    simp [node_editar, h]
  · exact ⟨okAnalysisEnv, errState, by decide, by decide⟩

/-- Witness for the amended claim C4: the edit node returns the errored
state unchanged. -/
theorem graph_error_shortcircuit_witness :
    node_editar idleEditorEnv errState = errState :=
  graph_error_shortcircuit.1 idleEditorEnv errState (by decide)

/-- Folding clipStep from any accumulator appends exactly the filtered and
projected survivors. -/
theorem foldl_clipStep_eq (start fim : ℚ) :
    ∀ (segs : List Seg) (acc : List Seg),
      segs.foldl (clipStep start fim) acc = acc ++ clippedSpecC9 segs start fim := by
  intro segs
  induction segs with
  | nil => intro acc; simp [clippedSpecC9]
  | cons seg rest ih =>
    intro acc
    rw [List.foldl_cons]
    by_cases hdrop : seg.stop < start ∨ seg.start > fim
    · have hnov : ¬ overlapsClip start fim seg := by
        rcases hdrop with hd | hd
        · exact fun hov => absurd hov.1 (not_le.2 hd)
        · exact fun hov => absurd hov.2 (not_le.2 hd)
      rw [show clipStep start fim acc seg = acc from by simp [clipStep, hdrop]]
      rw [ih acc]
      simp [clippedSpecC9, hnov]
    · have hov : overlapsClip start fim seg := by
        push_neg at hdrop
        exact ⟨not_lt.1 (fun hlt => absurd hdrop.1 (not_le.2 hlt)), hdrop.2⟩
      have hstep : clipStep start fim acc seg = acc ++ [projectClip start fim seg] := by
        rw [clipStep, if_neg (by push_neg; exact ⟨hov.1, hov.2⟩)]
        by_cases hwide : min seg.stop fim - start > max seg.start start - start
        · simp [projectClip, hwide, not_le.2 hwide]
        · simp [projectClip, hwide, not_lt.1 hwide]
      rw [hstep, ih (acc ++ [projectClip start fim seg])]
      simp [clippedSpecC9, hov, List.append_assoc]


/-- Claim C9: the clipped-transcript builder keeps exactly the segments
overlapping the clip interval, projects each survivor into the clip local
frame by intersecting and shifting, and widens a zero or negative projected
length to half a second. -/
theorem build_clipped_transcription_spec (segments : List Seg)
    (start fim : ℚ) :
    build_clipped_transcription segments start fim =
      clippedSpecC9 segments start fim := by
  rw [build_clipped_transcription, foldl_clipStep_eq]
  exact List.nil_append _

/-- The chunking fold equals the spec walk of claim C2 from any state whose
current chunk being empty forces the saved chunks to be empty (the only
states the walk can reach). -/
theorem foldl_chunkStep_eq_walk (d o : ℚ) :
    ∀ (segs : List Seg) (chunks : List (List Seg)) (cur : List Seg) (cs ce : ℚ),
      (cur = [] → chunks = []) →
      (let st := segs.foldl (chunkStep d o) ⟨chunks, cur, cs, ce⟩
       if st.current_chunk.isEmpty then st.chunks
       else st.chunks ++ [st.current_chunk]) =
      chunksWalkSpec d o chunks cur ce segs := by
  intro segs
  induction segs with
  | nil => intro chunks cur cs ce hinv; rfl
  | cons s rest ih =>
    intro chunks cur cs ce hinv
    show (let st := (s :: rest).foldl (chunkStep d o) ⟨chunks, cur, cs, ce⟩
          if st.current_chunk.isEmpty then st.chunks
          else st.chunks ++ [st.current_chunk]) =
        chunksWalkSpec d o chunks cur ce (s :: rest)
    rw [List.foldl_cons]
    by_cases hlt : s.start < ce
    · have hstep : chunkStep d o ⟨chunks, cur, cs, ce⟩ s =
          ⟨chunks, cur ++ [s], cs, ce⟩ := by
        simp [chunkStep, hlt]
      rw [hstep, chunksWalkSpec, if_pos hlt]
      exact ih chunks (cur ++ [s]) cs ce (by simp)
    · have hseed : ((if cur.isEmpty then chunks else chunks ++ [cur]).getLastD []).filter
          (fun p => decide (p.start ≥ ce - o)) =
          cur.filter (fun p => decide (p.start ≥ ce - o)) := by
        by_cases hemp : cur.isEmpty
        · have hcnil : cur = [] := List.isEmpty_iff.1 hemp
          rw [if_pos hemp, hinv hcnil, hcnil]
          rfl
        · rw [if_neg hemp, List.getLastD_concat]
      have hstep : chunkStep d o ⟨chunks, cur, cs, ce⟩ s =
          ⟨if cur.isEmpty then chunks else chunks ++ [cur],
           cur.filter (fun p => decide (p.start ≥ ce - o)) ++ [s],
           ce - o, ce - o + d⟩ := by
        rw [chunkStep, if_neg hlt]
        simp only [hseed]
      rw [hstep, chunksWalkSpec, if_neg hlt]
      exact ih (if cur.isEmpty then chunks else chunks ++ [cur])
        (cur.filter (fun p => decide (p.start ≥ ce - o)) ++ [s])
        (ce - o) (ce - o + d) (by simp)

/-- Claim C2: create_chunks_from_segments computes exactly the walk described
by the specification: segments starting before the chunk end join the current
chunk; otherwise the chunk closes, the window shifts to
[previous end - overlap, previous end - overlap + duration], the new chunk is
seeded with the closed chunk members whose start is at or after the new chunk
start and then receives the segment; the last open chunk is closed at the
end. -/
theorem create_chunks_matches_walk_spec (segments : List Seg) (d o : ℚ) :
    create_chunks_from_segments segments d o = chunksSpecC2 segments d o := by
  cases segments with
  | nil => rfl
  | cons s rest =>
    have h := foldl_chunkStep_eq_walk d o (s :: rest) [] [] 0 d (fun _ => rfl)
    simpa [create_chunks_from_segments, chunksSpecC2] using h

/-- One chunking step always leaves a non-empty current chunk: the walked
segment is appended in both branches. -/
theorem chunkStep_current_ne (d o : ℚ) (st : ChunkState) (s : Seg) :
    (chunkStep d o st s).current_chunk ≠ [] := by
  by_cases hlt : s.start < st.chunk_end_time <;>
    simp [chunkStep, hlt]

/-- After folding the chunking step over a non-empty list the current chunk
is non-empty. -/
theorem foldl_chunkStep_current_ne (d o : ℚ) :
    ∀ (segs : List Seg) (st : ChunkState), segs ≠ [] →
      (segs.foldl (chunkStep d o) st).current_chunk ≠ [] := by
  intro segs
  induction segs with
  | nil => intro st h; exact absurd rfl h
  | cons s rest ih =>
    intro st _
    rw [List.foldl_cons]
    by_cases hr : rest = []
    · subst hr
      exact chunkStep_current_ne d o st s
    · exact ih _ hr

/-- One chunking step preserves the structural invariants: saved chunks stay
non-empty sublists of the processed prefix and every processed segment stays
inside a saved chunk or the current one. -/
theorem chunkStep_inv (d o : ℚ) (st : ChunkState) (s : Seg) (pre : List Seg)
    (h1 : ∀ c ∈ st.chunks, c ≠ [] ∧ c.Sublist pre)
    (h2 : st.current_chunk.Sublist pre)
    (h3 : ∀ x ∈ pre, (∃ c ∈ st.chunks, x ∈ c) ∨ x ∈ st.current_chunk) :
    (∀ c ∈ (chunkStep d o st s).chunks, c ≠ [] ∧ c.Sublist (pre ++ [s])) ∧
    (chunkStep d o st s).current_chunk.Sublist (pre ++ [s]) ∧
    (∀ x ∈ pre ++ [s],
      (∃ c ∈ (chunkStep d o st s).chunks, x ∈ c) ∨
      x ∈ (chunkStep d o st s).current_chunk) := by
  by_cases hlt : s.start < st.chunk_end_time
  · have hchunks : (chunkStep d o st s).chunks = st.chunks := by
      simp [chunkStep, hlt]
    have hcur : (chunkStep d o st s).current_chunk =
        st.current_chunk ++ [s] := by
      simp [chunkStep, hlt]
    rw [hchunks, hcur]
    refine ⟨?_, ?_, ?_⟩
    · intro c hc
      exact ⟨(h1 c hc).1, (h1 c hc).2.trans (List.sublist_append_left pre [s])⟩
    · exact h2.append (List.Sublist.refl [s])
    · intro x hx
      rcases List.mem_append.1 hx with hxp | hxs
      · rcases h3 x hxp with ⟨c, hc, hxc⟩ | hxcur
        · exact Or.inl ⟨c, hc, hxc⟩
        · exact Or.inr (List.mem_append.2 (Or.inl hxcur))
      · exact Or.inr (List.mem_append.2 (Or.inr hxs))
  · have hchunks : (chunkStep d o st s).chunks =
        (if st.current_chunk.isEmpty then st.chunks
         else st.chunks ++ [st.current_chunk]) := by
      simp [chunkStep, hlt]
    have hcur : (chunkStep d o st s).current_chunk =
        ((if st.current_chunk.isEmpty then st.chunks
          else st.chunks ++ [st.current_chunk]).getLastD []).filter
          (fun p => decide (p.start ≥ st.chunk_end_time - o)) ++ [s] := by
      simp [chunkStep, hlt]
    have hch1 : ∀ c ∈ (if st.current_chunk.isEmpty then st.chunks
        else st.chunks ++ [st.current_chunk]), c ≠ [] ∧ c.Sublist pre := by
      by_cases hemp : st.current_chunk.isEmpty
      · rw [if_pos hemp]; exact h1
      · rw [if_neg hemp]
        intro c hc
        rcases List.mem_append.1 hc with hcm | hcm
        · exact h1 c hcm
        · rw [List.mem_singleton.1 hcm]
          exact ⟨fun hnil => hemp (List.isEmpty_iff.2 hnil), h2⟩
    have hseedsub : (((if st.current_chunk.isEmpty then st.chunks
        else st.chunks ++ [st.current_chunk]).getLastD []).filter
          (fun p => decide (p.start ≥ st.chunk_end_time - o))).Sublist pre := by
      rcases List.mem_cons.1 (List.getLastD_mem_cons
          (if st.current_chunk.isEmpty then st.chunks
           else st.chunks ++ [st.current_chunk]) []) with hnil | hmem
      · rw [hnil]
        simp
      · exact (List.filter_sublist _).trans (hch1 _ hmem).2
    rw [hchunks, hcur]
    refine ⟨?_, ?_, ?_⟩
    · intro c hc
      exact ⟨(hch1 c hc).1, (hch1 c hc).2.trans (List.sublist_append_left pre [s])⟩
    · exact hseedsub.append (List.Sublist.refl [s])
    · intro x hx
      rcases List.mem_append.1 hx with hxp | hxs
      · rcases h3 x hxp with ⟨c, hc, hxc⟩ | hxcur
        · refine Or.inl ⟨c, ?_, hxc⟩
          by_cases hemp : st.current_chunk.isEmpty
          · rw [if_pos hemp]; exact hc
          · rw [if_neg hemp]; exact List.mem_append.2 (Or.inl hc)
        · have hne : st.current_chunk ≠ [] := List.ne_nil_of_mem hxcur
          have hemp : ¬ st.current_chunk.isEmpty :=
            fun hcontra => hne (List.isEmpty_iff.1 hcontra)
          refine Or.inl ⟨st.current_chunk, ?_, hxcur⟩
          rw [if_neg hemp]
          exact List.mem_append_right _ (List.mem_singleton.2 rfl)
      · exact Or.inr (List.mem_append_right _ hxs)

/-- The chunking fold preserves the structural invariants over any processed
prefix. -/
theorem chunks_fold_inv (d o : ℚ) :
    ∀ (segs : List Seg) (st : ChunkState) (pre : List Seg),
      (∀ c ∈ st.chunks, c ≠ [] ∧ c.Sublist pre) →
      st.current_chunk.Sublist pre →
      (∀ x ∈ pre, (∃ c ∈ st.chunks, x ∈ c) ∨ x ∈ st.current_chunk) →
      (∀ c ∈ (segs.foldl (chunkStep d o) st).chunks,
          c ≠ [] ∧ c.Sublist (pre ++ segs)) ∧
      (segs.foldl (chunkStep d o) st).current_chunk.Sublist (pre ++ segs) ∧
      (∀ x ∈ pre ++ segs,
          (∃ c ∈ (segs.foldl (chunkStep d o) st).chunks, x ∈ c) ∨
          x ∈ (segs.foldl (chunkStep d o) st).current_chunk) := by
  intro segs
  induction segs with
  | nil =>
    intro st pre h1 h2 h3
    simpa using ⟨h1, h2, h3⟩
  | cons s rest ih =>
    intro st pre h1 h2 h3
    obtain ⟨k1, k2, k3⟩ := chunkStep_inv d o st s pre h1 h2 h3
    have key := ih (chunkStep d o st s) (pre ++ [s]) k1 k2 k3
    rw [List.foldl_cons]
    simpa [List.append_assoc] using key

/-- Claim C10: on a non-empty segment list the chunking returns a non-empty
list of chunks, every chunk is a non-empty sublist of the input (hence keeps
the relative input order), and every input segment occurs in at least one
chunk. -/
theorem create_chunks_invariants (segments : List Seg) (d o : ℚ)
    (h : segments ≠ []) :
    create_chunks_from_segments segments d o ≠ [] ∧
    (∀ c ∈ create_chunks_from_segments segments d o,
        c ≠ [] ∧ c.Sublist segments) ∧
    (∀ x ∈ segments,
        ∃ c ∈ create_chunks_from_segments segments d o, x ∈ c) := by
  have hemp : ¬ segments.isEmpty := fun hcontra => h (List.isEmpty_iff.1 hcontra)
  obtain ⟨inv1, inv2, inv3⟩ := chunks_fold_inv d o segments
    ⟨[], [], 0, d⟩ [] (by simp) (List.nil_sublist []) (by simp)
  have hcur : (segments.foldl (chunkStep d o) ⟨[], [], 0, d⟩).current_chunk ≠ [] :=
    foldl_chunkStep_current_ne d o segments _ h
  have hres : create_chunks_from_segments segments d o =
      (segments.foldl (chunkStep d o) ⟨[], [], 0, d⟩).chunks ++
        [(segments.foldl (chunkStep d o) ⟨[], [], 0, d⟩).current_chunk] := by
    rw [create_chunks_from_segments, if_neg hemp,
      if_neg (fun hcontra => hcur (List.isEmpty_iff.1 hcontra))]
  rw [hres]
  simp only [List.nil_append] at inv1 inv2 inv3
  refine ⟨by simp, ?_, ?_⟩
  · intro c hc
    rcases List.mem_append.1 hc with hcm | hcm
    · exact inv1 c hcm
    · rw [List.mem_singleton.1 hcm]
      exact ⟨hcur, inv2⟩
  · intro x hx
    rcases inv3 x hx with ⟨c, hc, hxc⟩ | hxcur
    · exact ⟨c, List.mem_append.2 (Or.inl hc), hxc⟩
    · exact ⟨_, List.mem_append_right _ (List.mem_singleton.2 rfl), hxcur⟩

/-- Witness for claim C10 at a concrete three-segment input. -/
theorem create_chunks_invariants_witness :
    create_chunks_from_segments sampleSegs 360 30 ≠ [] :=
  (create_chunks_invariants sampleSegs 360 30 (by simp [sampleSegs])).1

end CortAI
